import Mathlib

/-!
Verification development for the `n_m3u8dl_re.py` media downloader.

The Python source (class `MediaDownloader`) is shallowly embedded below:
pure fragments become Lean functions, the filesystem becomes an explicit
map from path strings to optional byte lists, network responses become a
map from URL to optional byte lists, and the external decryption tool is
a parameter describing the subprocess outcome.  Machine integers are
modelled as `Nat`/`Int`; byte lists are `List Nat` with values below 256.

The file is organised as: all definitions first, then all theorems.
-/

set_option autoImplicit false

namespace NM3u8DL

/-- Bytes of a file or response body, each entry intended to be below 256. -/
abbrev Bytes := List Nat

/-- A filesystem: maps an (already joined) path string to the contents of
the file there, or `none` when no file exists at that path.  This models
`os.path.exists` plus reading and writing files in the source. -/
abbrev FS := String → Option Bytes

/-- Write a file: the filesystem after `open(p, 'wb')` followed by `write(b)`. -/
def fsWrite (fs : FS) (p : String) (b : Bytes) : FS :=
  fun q => if q = p then some b else fs q

/-- Remove a file (used to model the source side of `os.rename`). -/
def fsErase (fs : FS) (p : String) : FS :=
  fun q => if q = p then none else fs q

/-- `os.path.join` for a directory and a relative name (POSIX form used
throughout the source). -/
def pathJoin (dir name : String) : String :=
  dir ++ "/" ++ name

/-! ## C1 — DASH SegmentTimeline expansion (`handle_dash`, lines 157-169)

The Python loop is

  current_time = 0
  for s in timeline.s:
      t = s.t if s.t is not None else current_time
      d = s.d
      r = s.r if s.r is not None else 0
      for i in range(r + 1):
          ... media template with $Time$ -> str(t) ...
          t += d
      current_time = t
-/

/-- One `<S>` element of a DASH `SegmentTimeline`: optional start time `t`,
duration `d`, optional repeat count `r` (as in `mpegdash`, all integers). -/
structure SEntry where
  t : Option Int
  d : Int
  r : Option Int
deriving DecidableEq, Repr

/-- The inner `for i in range(r + 1)` loop of `handle_dash`: starting from
time `t` with duration `d`, emit `k` segment times and return the final
value of the mutable `t` (Python `range` of a non-positive bound is empty,
which the caller achieves via `Int.toNat`). -/
def emitLoop (t d : Int) : Nat → List Int × Int
  | 0 => ([], t)
  | Nat.succ k =>
    let rest := emitLoop (t + d) d k
    (t :: rest.1, rest.2)

/-- The outer `for s in timeline.s` loop of `handle_dash`, carrying the
mutable `current_time` (second argument). -/
def expandS : List SEntry → Int → List Int
  | [], _ => []
  | e :: es, ct =>
    let t0 : Int := e.t.getD ct
    let k : Nat := (e.r.getD 0 + 1).toNat
    let loop := emitLoop t0 e.d k
    loop.1 ++ expandS es loop.2

/-- Expansion of a whole `SegmentTimeline` into the list of `$Time$` values,
with `current_time` seeded to 0 as in the source. -/
def expandTimeline (entries : List SEntry) : List Int :=
  expandS entries 0

/-! ## C2 — HLS implicit IV (`download_hls_segment`, line 118)

  iv = bytes.fromhex(key_info.iv.replace('0x', '')) if key_info.iv
       else index.to_bytes(16, 'big')
-/

/-- Python `int.to_bytes(len, 'big')`: big-endian byte list of length `len`
(the Python call raises `OverflowError` when `n` does not fit; the model is
used within that range). -/
def toBytesBE (len : Nat) (n : Nat) : Bytes :=
  match len with
  | 0 => []
  | Nat.succ l => toBytesBE l (n / 256) ++ [n % 256]

/-- The IV selected by `download_hls_segment` for an encrypted segment:
the explicit IV bytes when the key reference carries one, otherwise the
16-byte big-endian encoding of the segment index. -/
def segmentIV (explicitIV : Option Bytes) (index : Nat) : Bytes :=
  match explicitIV with
  | some iv => iv
  | none => toBytesBE 16 index

/-- Big-endian decoding of a byte list. -/
def beDecode (b : Bytes) : Nat :=
  b.foldl (fun acc x => acc * 256 + x) 0

/-! ## C4, C8 — fetch scheduler (`download_segment` lines 42-55,
`download_hls_segment` lines 108-124, the thread-pool loops lines 97-104 and
180-186)

The thread pool runs plan entries concurrently, but the entries write
pairwise-distinct target paths and `tqdm.update(1)` is an atomic increment,
so the per-entry outcomes and the aggregate counts coincide with a
sequential left fold over the plan, which is what `runScheduler` is. -/

/-- Outcome of one worker: the value returned by `download_segment`
(`True`/`False`), the number of HTTP requests it issued, the number of
`pbar.update(1)` calls it made, and the filesystem afterwards. -/
structure SegOutcome where
  ok : Bool
  requests : Nat
  pbarInc : Nat
  fs : FS

/-- `MediaDownloader.download_segment`: skip when the target path exists
(returning `True` and updating the bar), otherwise issue one request; on a
response write the body and update the bar, on a transport error print and
return `False` without updating the bar. -/
def download_segment (net : String → Option Bytes) (fs : FS)
    (url path : String) : SegOutcome :=
  if (fs path).isSome then ⟨true, 0, 1, fs⟩
  else
    match net url with
    | some body => ⟨true, 1, 1, fsWrite fs path body⟩
    | none => ⟨false, 1, 0, fs⟩

/-- `MediaDownloader.download_hls_segment`: skip when the target exists;
otherwise fetch the segment, fetch the key when a key reference is present
(`keyInfo` carries the resolved key URL and the optional explicit IV bytes),
decrypt with AES-128-CBC (`aes key iv data`, an external primitive), and
write the result.  A failed fetch raises inside the worker: no file is
written and the bar is not updated. -/
def download_hls_segment (net : String → Option Bytes)
    (aes : Bytes → Bytes → Bytes → Bytes) (fs : FS) (url : String)
    (keyInfo : Option (String × Option Bytes)) (path : String)
    (index : Nat) : SegOutcome :=
  if (fs path).isSome then ⟨true, 0, 1, fs⟩
  else
    match net url with
    | none => ⟨false, 1, 0, fs⟩
    | some data =>
      match keyInfo with
      | none => ⟨true, 1, 1, fsWrite fs path data⟩
      | some (keyUrl, ivOpt) =>
        match net keyUrl with
        | none => ⟨false, 2, 0, fs⟩
        | some key => ⟨true, 2, 1, fsWrite fs path (aes key (segmentIV ivOpt index) data)⟩

/-- Scheduler state: filesystem, request count, number of entries whose
worker returned `True`, current progress-bar value, and the successive
progress-bar values shown so far. -/
structure SchedState where
  fs : FS
  requests : Nat
  successes : Nat
  progress : Nat
  trace : List Nat

/-- Initial scheduler state: `tqdm` starts displaying 0. -/
def schedInit (fs : FS) : SchedState :=
  ⟨fs, 0, 0, 0, [0]⟩

/-- One plan entry `(url, path)` processed by the DASH scheduler loop. -/
def schedStep (net : String → Option Bytes) (st : SchedState)
    (e : String × String) : SchedState :=
  let r := download_segment net st.fs e.1 e.2
  ⟨r.fs, st.requests + r.requests,
   st.successes + (if r.ok then 1 else 0),
   st.progress + r.pbarInc,
   st.trace ++ [st.progress + r.pbarInc]⟩

/-- The DASH scheduler run (lines 180-186): process every plan entry. -/
def runScheduler (net : String → Option Bytes)
    (plan : List (String × String)) (fs : FS) : SchedState :=
  plan.foldl (schedStep net) (schedInit fs)

/-! ## C5, C6 — rendition selection

`max(iterable, key=...)` in Python scans left to right and replaces the
current best only on a strictly greater key, so the first-encountered
maximum wins. -/

/-- One step of Python `max(..., key=...)`. -/
def pyStep {α : Type} (key : α → Int) (acc : Option α) (x : α) : Option α :=
  match acc with
  | none => some x
  | some m => if key m < key x then some x else some m

/-- Python `max(l, key=...)`: `none` on an empty list (Python raises). -/
def pyMax {α : Type} (key : α → Int) (l : List α) : Option α :=
  l.foldl (pyStep key) none

/-- A DASH `Representation`: id, bandwidth and optional width. -/
structure Representation where
  id : String
  bandwidth : Int
  width : Option Nat
deriving DecidableEq, Repr

/-- A DASH `AdaptationSet`: optional content type plus representations. -/
structure AdaptationSet where
  content_type : Option String
  representations : List Representation
deriving DecidableEq, Repr

/-- Python truthiness of `s.content_type`: `not s.content_type` holds for
`None` and for the empty string. -/
def falsyStr : Option String → Bool
  | none => true
  | some s => s.isEmpty

/-- Python truthiness of `r.width`: a width counts only when present and
non-zero. -/
def truthyWidth : Option Nat → Bool
  | none => false
  | some w => w != 0

/-- The filter of `handle_dash` line 133:
`s.content_type == 'video' or (not s.content_type and any(r.width for r in s.representations))`. -/
def isVideoSet (s : AdaptationSet) : Bool :=
  s.content_type == some "video" ||
    (falsyStr s.content_type && s.representations.any (fun r => truthyWidth r.width))

/-- `video_sets` of `handle_dash` line 133. -/
def video_sets (period : List AdaptationSet) : List AdaptationSet :=
  period.filter isVideoSet

/-- The representation `handle_dash` selects: the first video adaptation
set's maximum-bandwidth representation; `none` when there is no video set
(the source prints and returns) or the set has no representations. -/
def dashSelected (period : List AdaptationSet) : Option Representation :=
  match video_sets period with
  | [] => none
  | vset :: _ => pyMax (fun r => r.bandwidth) vset.representations

/-- The output files a `handle_dash` run produces: none when no video
adaptation set is found, otherwise the single file `save_name + ".mp4"`. -/
def dashOutputs (period : List AdaptationSet) (saveName : String) : List String :=
  match video_sets period with
  | [] => []
  | _ :: _ => [saveName ++ ".mp4"]

/-! ## C7 — URL derivation (`handle_dash` lines 141-177)

Strings are handled at character level here because the claims are about
`rsplit`, `replace` and `urljoin`. -/

/-- Python `s.rsplit(sep, 1)[0]`: everything before the last occurrence of
`sep`, or all of `s` when `sep` does not occur. -/
def pyRsplitBeforeLast (sep : Char) (s : List Char) : List Char :=
  match s.reverse.dropWhile (fun c => c != sep) with
  | [] => s
  | _ :: rest => rest.reverse

/-- Fuelled worker for Python `str.replace`: leftmost, non-overlapping
replacement of every occurrence of `pat` by `rep`.  Each step consumes at
least one character, so fuel equal to the input length suffices. -/
def replaceAllF (pat rep : List Char) : Nat → List Char → List Char
  | 0, s => s
  | _ + 1, [] => []
  | fuel + 1, c :: cs =>
    if pat ≠ [] ∧ pat.isPrefixOf (c :: cs) then
      rep ++ replaceAllF pat rep fuel ((c :: cs).drop pat.length)
    else
      c :: replaceAllF pat rep fuel cs

/-- Python `s.replace(pat, rep)` for a non-empty pattern. -/
def replaceAll (pat rep s : List Char) : List Char :=
  replaceAllF pat rep s.length s

/-- Whether a reference carries a scheme (contains "://"). -/
def hasSchemeSep : List Char → Bool
  | ':' :: '/' :: '/' :: _ => true
  | _ :: rest => hasSchemeSep rest
  | [] => false

/-- Model of `urllib.parse.urljoin` restricted to the shapes `handle_dash`
produces: the base is an absolute URL containing a slash (here always
ending in one), and the reference is either an absolute URL with a scheme
or a plain relative path without a leading slash or dot segments.  For
those inputs the join keeps the base up to its last slash and appends the
reference. -/
def urljoin (base rel : List Char) : List Char :=
  if hasSchemeSep rel then rel
  else pyRsplitBeforeLast '/' base ++ '/' :: rel

/-- Decimal digit characters of `n`, most significant first (fuelled; fuel
`n + 1` always suffices since the argument shrinks by a factor 10). -/
def natDigits (fuel n : Nat) : List Char :=
  match fuel with
  | 0 => []
  | f + 1 =>
    if n < 10 then [Char.ofNat (48 + n)]
    else natDigits f (n / 10) ++ [Char.ofNat (48 + n % 10)]

/-- Python `str` of an integer. -/
def intStr (t : Int) : List Char :=
  if t < 0 then '-' :: natDigits (t.natAbs + 1) t.natAbs
  else natDigits (t.toNat + 1) t.toNat

/-- The base URL of `handle_dash` line 141:
`self.input_url.rsplit('/', 1)[0] + '/'` (representation without BaseURL
elements, the case lines 142-145 leave the base unchanged). -/
def dashBaseUrl (inputUrl : List Char) : List Char :=
  pyRsplitBeforeLast '/' inputUrl ++ ['/']

/-- A derived media segment URL (lines 166-167): substitute
`$RepresentationID$` then `$Time$` in the media template, then join
against the base URL. -/
def dashSegUrl (inputUrl tmpl repId : List Char) (t : Int) : List Char :=
  urljoin (dashBaseUrl inputUrl)
    (replaceAll "$Time$".toList (intStr t)
      (replaceAll "$RepresentationID$".toList repId tmpl))

/-- A derived initialization URL (lines 150-151). -/
def dashInitUrl (inputUrl initTmpl repId : List Char) : List Char :=
  urljoin (dashBaseUrl inputUrl)
    (replaceAll "$RepresentationID$".toList repId initTmpl)

/-! ## C3 — merge (`merge_files` lines 201-208, call site lines 188-191)

`handle_dash` builds `files = ["init.mp4"] + sorted(seg names from the tmp
dir)` and calls `merge_files(files, temp_merged, is_abs=True)`.  With
`is_abs=True`, `merge_files` resolves each entry of `files` as given, i.e.
relative to the process working directory, not against `tmp_dir`. -/

/-- The bytes `merge_files` writes to the output: concatenation, in list
order, of the contents of each file that exists at the resolved path
(`f` itself when `is_abs`, `tmp_dir/f` otherwise). -/
def merge_files_content (fs : FS) (tmpDir : String) (files : List String)
    (isAbs : Bool) : Bytes :=
  files.foldl (fun acc f =>
    let fPath := if isAbs then f else pathJoin tmpDir f
    match fs fPath with
    | some b => acc ++ b
    | none => acc) []

/-- `merge_files`: open the output for writing (creating it empty) and
append every existing input file. -/
def merge_files (fs : FS) (tmpDir saveDir : String) (files : List String)
    (outputName : String) (isAbs : Bool) : FS :=
  let outputPath := if isAbs then outputName else pathJoin saveDir outputName
  fsWrite fs outputPath (merge_files_content fs tmpDir files isAbs)

/-- The merge call of `handle_dash` lines 188-191: prepend `"init.mp4"` to
the segment file names and merge with `is_abs=True` into
`tmp_dir/merged_encrypted.mp4`.  Returns the filesystem and that path. -/
def dash_merge (fs : FS) (tmpDir saveDir : String)
    (segNames : List String) : FS × String :=
  let files := "init.mp4" :: segNames
  let temp_merged := pathJoin tmpDir "merged_encrypted.mp4"
  (merge_files fs tmpDir saveDir files temp_merged true, temp_merged)

/-! ## C9, C10 — container decryption (`decrypt_mp4` lines 57-82, call site
lines 193-199) -/

/-- Outcome of `subprocess.run(cmd, check=True, ...)`: the binary may be
missing (`FileNotFoundError` at spawn) or run to an exit code
(`CalledProcessError` when non-zero, because of `check=True`). -/
inductive ToolRun where
  | spawnFail
  | exitCode (c : Nat)
deriving DecidableEq, Repr

/-- Result of `decrypt_mp4`: the Python-level outcome (`Except.error` when
an uncaught exception propagates, otherwise the returned boolean), whether
an external tool process was started, and the filesystem afterwards. -/
structure DecryptOutcome where
  result : Except Unit Bool
  toolInvoked : Bool
  fs : FS

/-- `MediaDownloader.decrypt_mp4`.  With no keys: `os.rename(input, output)`
and return `True` (no subprocess; rename raises when the input is missing).
With keys: run the external tool; exit 0 returns `True` with the output
written (`toolOut` is the tool's transform of the input bytes), a non-zero
exit raises `CalledProcessError`, which is caught, printed and turned into
`False`; a missing binary raises `FileNotFoundError`, which the
`except subprocess.CalledProcessError` clause does not catch, so it
propagates. -/
def decrypt_mp4 (keys : List String) (tool : ToolRun)
    (toolOut : Bytes → Bytes) (fs : FS)
    (inputPath outputPath : String) : DecryptOutcome :=
  if keys.isEmpty then
    match fs inputPath with
    | some b => ⟨Except.ok true, false, fsWrite (fsErase fs inputPath) outputPath b⟩
    | none => ⟨Except.error (), false, fs⟩
  else
    match tool with
    | ToolRun.spawnFail => ⟨Except.error (), true, fs⟩
    | ToolRun.exitCode 0 =>
      ⟨Except.ok true, true, fsWrite fs outputPath (toolOut ((fs inputPath).getD []))⟩
    | ToolRun.exitCode (Nat.succ _) => ⟨Except.ok false, true, fs⟩

/-- The tail of `handle_dash` (lines 193-199): decrypt the merged file into
`save_dir/save_name.mp4`; on `True` report the final output, on `False`
report that the encrypted file stays at the temporary path; an uncaught
exception reports nothing. -/
def finalizeDash (keys : List String) (tool : ToolRun)
    (toolOut : Bytes → Bytes) (fs : FS)
    (tmpDir saveDir saveName : String) : Except Unit (String × Bool) × FS :=
  let temp_merged := pathJoin tmpDir "merged_encrypted.mp4"
  let final_output := pathJoin saveDir (saveName ++ ".mp4")
  let d := decrypt_mp4 keys tool toolOut fs temp_merged final_output
  match d.result with
  | Except.ok true => (Except.ok (final_output, true), d.fs)
  | Except.ok false => (Except.ok (temp_merged, false), d.fs)
  | Except.error e => (Except.error e, d.fs)

/-! ## Concrete fixtures used by witnesses and counterexamples -/

/-- A period with one video and one audio adaptation set. -/
def exampleVideoSet : AdaptationSet :=
  ⟨some "video", [⟨"v1", 1000, some 1920⟩]⟩

def exampleAudioSet : AdaptationSet :=
  ⟨some "audio", [⟨"a1", 128, none⟩]⟩

def examplePeriod : List AdaptationSet :=
  [exampleVideoSet, exampleAudioSet]

/-- Temporary directory of a DASH run with save name "output". -/
def bugTmpDir : String := "downloads/tmp_output"

/-- Filesystem of a DASH run in which the init segment and segment 0 were
fetched into the temporary directory (and the working directory holds no
files named like them). -/
def bugFS : FS := fun p =>
  if p = "downloads/tmp_output/init.mp4" then some [9]
  else if p = "downloads/tmp_output/seg_00000.m4s" then some [1]
  else none

/-- Filesystem holding only the merged (encrypted) DASH artifact. -/
def mergedFS : FS := fun p =>
  if p = "downloads/tmp_output/merged_encrypted.mp4" then some [5] else none

/-! # Theorems -/

/-! ## C1 -/

/-- The inner loop leaves the running time at `t + k*d`. -/
theorem emitLoop_snd (t d : Int) (k : Nat) :
    (emitLoop t d k).2 = t + d * k := by
  induction k generalizing t with
  | zero => simp [emitLoop]
  | succ k ih =>
    simp only [emitLoop, ih (t + d)]
    push_cast
    ring

/-- The inner loop emits exactly `k` times: `t, t+d, ..., t+(k-1)*d`. -/
theorem emitLoop_fst (t d : Int) (k : Nat) :
    (emitLoop t d k).1 = (List.range k).map (fun i : Nat => t + d * (i : Int)) := by
  induction k generalizing t with
  | zero => simp [emitLoop]
  | succ k ih =>
    simp only [emitLoop, ih (t + d)]
    rw [List.range_succ_eq_map]
    simp only [List.map_cons, List.map_map]
    refine congrArg₂ List.cons (by ring_nf) ?_
    apply List.map_congr_left
    intro i _
    simp only [Function.comp_apply]
    push_cast [Nat.succ_eq_add_one]
    ring

/-- C1: SegmentTimeline expansion produces each entry `repeat-count + 1`
times, advancing the running time by the entry's duration each repetition;
an entry with unspecified start time is seeded from the running total, and
the running total passed on equals start plus `(r+1)` durations.  The two
literal timelines of the spec evaluate to `[0,10,20]` and `[0,5]`. -/
theorem timeline_expansion_spec :
    (∀ (e : SEntry) (es : List SEntry) (ct : Int),
      expandS (e :: es) ct =
        (List.range (e.r.getD 0 + 1).toNat).map
            (fun i : Nat => e.t.getD ct + e.d * (i : Int))
          ++ expandS es (e.t.getD ct + e.d * ((e.r.getD 0 + 1).toNat : Int))) ∧
    expandTimeline [⟨some 0, 10, some 2⟩] = [0, 10, 20] ∧
    expandTimeline [⟨some 0, 5, some 0⟩, ⟨none, 5, some 0⟩] = [0, 5] := by
  refine ⟨?_, ?_, ?_⟩
  · intro e es ct
    simp only [expandS, emitLoop_fst, emitLoop_snd]
  · decide
  · decide

/-! ## C2 -/

theorem beDecode_append (u v : Bytes) :
    beDecode (u ++ v) = v.foldl (fun acc x => acc * 256 + x) (beDecode u) := by
  simp [beDecode, List.foldl_append]

theorem toBytesBE_length (len n : Nat) : (toBytesBE len n).length = len := by
  induction len generalizing n with
  | zero => rfl
  | succ l ih => simp [toBytesBE, ih]

theorem toBytesBE_lt (len n : Nat) : ∀ b ∈ toBytesBE len n, b < 256 := by
  induction len generalizing n with
  | zero => intro b hb; simp [toBytesBE] at hb
  | succ l ih =>
    intro b hb
    simp only [toBytesBE, List.mem_append, List.mem_singleton] at hb
    rcases hb with hb | hb
    · exact ih _ b hb
    · subst hb; exact Nat.mod_lt _ (by norm_num)

theorem toBytesBE_decode (len n : Nat) (h : n < 256 ^ len) :
    beDecode (toBytesBE len n) = n := by
  induction len generalizing n with
  | zero =>
    interval_cases n
    rfl
  | succ l ih =>
    have hdiv : n / 256 < 256 ^ l := by
      rw [Nat.div_lt_iff_lt_mul (by norm_num : 0 < 256)]
      calc n < 256 ^ (l + 1) := h
        _ = 256 ^ l * 256 := by ring
    simp only [toBytesBE, beDecode_append, ih (n / 256) hdiv]
    simp [Nat.div_add_mod, Nat.mul_comm]

/-- C2: with no explicit IV, the IV used for AES-128-CBC decryption of the
segment at zero-based index `i` is the 16-byte big-endian encoding of `i`:
it has length 16, all entries are bytes, it decodes back to `i`, and for
index 3 it is fifteen zero bytes followed by 3. -/
theorem implicit_iv_spec (i : Nat) (h : i < 256 ^ 16) :
    (segmentIV none i).length = 16 ∧
    (∀ b ∈ segmentIV none i, b < 256) ∧
    beDecode (segmentIV none i) = i ∧
    segmentIV none 3 = [0,0,0,0,0,0,0,0,0,0,0,0,0,0,0,3] := by
  refine ⟨toBytesBE_length 16 i, toBytesBE_lt 16 i, toBytesBE_decode 16 i h, ?_⟩
  decide

/-- Witness for C2 at index 3. -/
theorem implicit_iv_spec_witness :
    3 < 256 ^ 16 ∧ beDecode (segmentIV none 3) = 3 :=
  ⟨by norm_num, (implicit_iv_spec 3 (by norm_num)).2.2.1⟩

/-! ## C4 -/

/-- Folding the scheduler over a plan whose target paths all exist leaves
the state's filesystem unchanged, issues no request, and counts every
entry as a success. -/
theorem schedFold_all_cached (net : String → Option Bytes) :
    ∀ (plan : List (String × String)) (st : SchedState),
      (∀ e ∈ plan, (st.fs e.2).isSome) →
        (plan.foldl (schedStep net) st).fs = st.fs ∧
        (plan.foldl (schedStep net) st).requests = st.requests ∧
        (plan.foldl (schedStep net) st).successes = st.successes + plan.length := by
  intro plan
  induction plan with
  | nil => intro st _; simp
  | cons e es ih =>
    intro st hall
    have he : (st.fs e.2).isSome := hall e (List.mem_cons_self e es)
    have hstep : schedStep net st e =
        ⟨st.fs, st.requests, st.successes + 1, st.progress + 1,
         st.trace ++ [st.progress + 1]⟩ := by
      simp [schedStep, download_segment, he]
    rw [List.foldl_cons, hstep]
    have hrest : ∀ f ∈ es, ((st.fs) f.2).isSome := fun f hf => hall f (List.mem_cons_of_mem e hf)
    obtain ⟨h1, h2, h3⟩ := ih ⟨st.fs, st.requests, st.successes + 1, st.progress + 1,
         st.trace ++ [st.progress + 1]⟩ hrest
    refine ⟨h1, h2, ?_⟩
    rw [h3]
    simp [List.length_cons]
    omega

/-- C4: an entry whose local cache file exists is skipped — `download_segment`
(and the HLS worker) issue no request, leave the filesystem unchanged, and
count it as successful; consequently a run over a plan whose files are all
present issues zero requests, reports every entry successful, and leaves
the directory untouched. -/
theorem cache_idempotence_spec :
    (∀ (net : String → Option Bytes) (fs : FS) (url path : String),
      (fs path).isSome →
        download_segment net fs url path = ⟨true, 0, 1, fs⟩) ∧
    (∀ (net : String → Option Bytes) (aes : Bytes → Bytes → Bytes → Bytes)
        (fs : FS) (url : String) (ki : Option (String × Option Bytes))
        (path : String) (i : Nat),
      (fs path).isSome →
        download_hls_segment net aes fs url ki path i = ⟨true, 0, 1, fs⟩) ∧
    (∀ (net : String → Option Bytes) (plan : List (String × String)) (fs : FS),
      (∀ e ∈ plan, (fs e.2).isSome) →
        (runScheduler net plan fs).requests = 0 ∧
        (runScheduler net plan fs).successes = plan.length ∧
        (runScheduler net plan fs).fs = fs) := by
  refine ⟨?_, ?_, ?_⟩
  · intro net fs url path h
    simp [download_segment, h]
  · intro net aes fs url ki path i h
    simp [download_hls_segment, h]
  · intro net plan fs hall
    obtain ⟨h1, h2, h3⟩ := schedFold_all_cached net plan (schedInit fs) hall
    exact ⟨h2, by simpa [runScheduler, schedInit] using h3, h1⟩

/-- Witness for C4: a two-entry plan whose files are both present. -/
theorem cache_idempotence_spec_witness :
    (∀ e ∈ [("u0", "p0"), ("u1", "p1")],
        ((fun _ => some ([] : Bytes)) e.2).isSome) ∧
    (runScheduler (fun _ => none) [("u0", "p0"), ("u1", "p1")]
        (fun _ => some ([] : Bytes))).requests = 0 ∧
    (runScheduler (fun _ => none) [("u0", "p0"), ("u1", "p1")]
        (fun _ => some ([] : Bytes))).successes =
      ([("u0", "p0"), ("u1", "p1")] : List (String × String)).length :=
  ⟨by decide,
   (cache_idempotence_spec.2.2 (fun _ => none) [("u0", "p0"), ("u1", "p1")]
      (fun _ => some ([] : Bytes)) (by decide)).1,
   (cache_idempotence_spec.2.2 (fun _ => none) [("u0", "p0"), ("u1", "p1")]
      (fun _ => some ([] : Bytes)) (by decide)).2.1⟩

/-! ## C8 -/

/-- A worker updates the bar exactly when it reports success, and at most
once. -/
theorem download_segment_inc (net : String → Option Bytes) (fs : FS)
    (url path : String) :
    (download_segment net fs url path).pbarInc =
      (if (download_segment net fs url path).ok then 1 else 0) := by
  by_cases h : (fs path).isSome
  · simp [download_segment, h]
  · simp only [download_segment, h, if_false]
    cases net url <;> simp

/-- Invariant of the scheduler fold: the trace ends at the current progress
value, stays a chain under `≤`, progress matches the success count, and
successes grow by at most the number of processed entries. -/
theorem schedFold_inv (net : String → Option Bytes) :
    ∀ (plan : List (String × String)) (st : SchedState),
      st.trace.getLast? = some st.progress →
      List.Chain' (· ≤ ·) st.trace →
      (plan.foldl (schedStep net) st).trace.getLast? =
          some (plan.foldl (schedStep net) st).progress ∧
      List.Chain' (· ≤ ·) (plan.foldl (schedStep net) st).trace ∧
      (plan.foldl (schedStep net) st).progress + st.successes =
        (plan.foldl (schedStep net) st).successes + st.progress ∧
      (plan.foldl (schedStep net) st).successes ≤ st.successes + plan.length := by
  intro plan
  induction plan with
  | nil => intro st h1 h2; exact ⟨h1, h2, Nat.add_comm _ _, Nat.le_refl _⟩
  | cons e es ih =>
    intro st h1 h2
    rw [List.foldl_cons]
    have hinc := download_segment_inc net st.fs e.1 e.2
    set r := download_segment net st.fs e.1 e.2 with hr
    have hlast : (schedStep net st e).trace.getLast? =
        some (schedStep net st e).progress := by
      simp [schedStep, List.getLast?_concat, ← hr]
    have hchain : List.Chain' (· ≤ ·) (schedStep net st e).trace := by
      simp only [schedStep, ← hr]
      rw [List.chain'_append]
      refine ⟨h2, List.chain'_singleton _, ?_⟩
      intro x hx y hy
      rw [h1] at hx
      simp only [Option.mem_def, Option.some.injEq] at hx
      simp only [List.head?_cons, Option.mem_def, Option.some.injEq] at hy
      subst hx; subst hy
      exact Nat.le_add_right _ _
    obtain ⟨g1, g2, g3, g4⟩ := ih (schedStep net st e) hlast hchain
    refine ⟨g1, g2, ?_, ?_⟩
    · have hps : (schedStep net st e).progress + st.successes =
          (schedStep net st e).successes + st.progress := by
        simp only [schedStep, ← hr, hinc]
        cases r.ok <;> simp <;> omega
      omega
    · have hsucc : (schedStep net st e).successes ≤ st.successes + 1 := by
        simp only [schedStep, ← hr]
        cases r.ok <;> simp
      calc (es.foldl (schedStep net) (schedStep net st e)).successes
          ≤ (schedStep net st e).successes + es.length := g4
        _ ≤ st.successes + 1 + es.length := by omega
        _ = st.successes + (e :: es).length := by simp [List.length_cons]; omega

/-- C8 (amended): the progress values a run displays never decrease, the
final value equals the number of entries counted successful (cached or
fetched), and that count never exceeds the plan length — it equals the
plan length only when no entry fails. -/
theorem progress_monotone_spec (net : String → Option Bytes)
    (plan : List (String × String)) (fs : FS) :
    List.Chain' (· ≤ ·) (runScheduler net plan fs).trace ∧
    (runScheduler net plan fs).progress = (runScheduler net plan fs).successes ∧
    (runScheduler net plan fs).successes ≤ plan.length := by
  obtain ⟨g1, g2, g3, g4⟩ := schedFold_inv net plan (schedInit fs)
    (by simp [schedInit]) (by simp [schedInit])
  refine ⟨g2, ?_, ?_⟩
  · simpa [schedInit] using g3
  · simpa [schedInit] using g4

/-- C8 counterexample: in a two-entry plan whose second fetch fails, the
run ends with progress value 1, not the plan length 2 — the claim that the
final progress equals the plan length even on failing runs is false. -/
theorem progress_final_cex :
    (runScheduler (fun u => if u = "u0" then some [1] else none)
        [("u0", "p0"), ("u1", "p1")] (fun _ => none)).progress = 1 ∧
    ([("u0", "p0"), ("u1", "p1")] : List (String × String)).length = 2 ∧
    (1 : Nat) ≠ 2 := by
  refine ⟨by decide, by decide, by decide⟩

/-! ## C5 -/

/-- Characterisation of the fold behind Python `max(..., key=...)` once an
initial candidate `m` is in hand: the result sits at some position of
`m :: xs`, its key dominates every element, and every strictly earlier
element has a strictly smaller key (ties keep the earlier element). -/
theorem pyMax_go {α : Type} (key : α → Int) :
    ∀ (xs : List α) (m : α),
      ∃ i v, (m :: xs).get? i = some v ∧
        xs.foldl (pyStep key) (some m) = some v ∧
        (∀ j w, (m :: xs).get? j = some w → key w ≤ key v) ∧
        (∀ j w, j < i → (m :: xs).get? j = some w → key w < key v) := by
  intro xs
  induction xs with
  | nil =>
    intro m
    refine ⟨0, m, rfl, rfl, ?_, ?_⟩
    · intro j w hj
      match j with
      | 0 => simp only [List.get?_cons_zero, Option.some.injEq] at hj; subst hj; exact le_refl _
      | j + 1 => simp at hj
    · intro j w hj; omega
  | cons y ys ih =>
    intro m
    by_cases h : key m < key y
    · obtain ⟨i', v, hget, heq, hmax, hfirst⟩ := ih y
      have hy : key y ≤ key v := hmax 0 y rfl
      have hfold : (y :: ys).foldl (pyStep key) (some m) =
          ys.foldl (pyStep key) (some y) := by
        simp [pyStep, h]
      refine ⟨i' + 1, v, by simpa using hget, by rw [hfold]; exact heq, ?_, ?_⟩
      · intro j w hj
        match j with
        | 0 =>
          simp only [List.get?_cons_zero, Option.some.injEq] at hj; subst hj
          exact le_of_lt (lt_of_lt_of_le h hy)
        | j + 1 =>
          exact hmax j w (by simpa using hj)
      · intro j w hjlt hj
        match j with
        | 0 =>
          simp only [List.get?_cons_zero, Option.some.injEq] at hj; subst hj
          exact lt_of_lt_of_le h hy
        | j + 1 =>
          exact hfirst j w (by omega) (by simpa using hj)
    · obtain ⟨i', v, hget, heq, hmax, hfirst⟩ := ih m
      have hym : key y ≤ key m := le_of_not_lt h
      have hm : key m ≤ key v := hmax 0 m rfl
      have hfold : (y :: ys).foldl (pyStep key) (some m) =
          ys.foldl (pyStep key) (some m) := by
        simp [pyStep, h]
      match i', hget, hfirst with
      | 0, hget, _ =>
        simp only [List.get?_cons_zero, Option.some.injEq] at hget
        refine ⟨0, v, by simpa using congrArg some hget, by rw [hfold]; exact heq, ?_, ?_⟩
        · intro j w hj
          match j with
          | 0 =>
            simp only [List.get?_cons_zero, Option.some.injEq] at hj; subst hj
            exact hm
          | 1 =>
            simp only [List.get?_cons_succ, List.get?_cons_zero, Option.some.injEq] at hj
            subst hj
            exact le_trans hym hm
          | j + 2 =>
            exact hmax (j + 1) w (by simpa using hj)
        · intro j w hjlt hj; omega
      | j0 + 1, hget, hfirst =>
        have hm' : key m < key v := hfirst 0 m (by omega) rfl
        refine ⟨j0 + 2, v, by simpa using hget, by rw [hfold]; exact heq, ?_, ?_⟩
        · intro j w hj
          match j with
          | 0 =>
            simp only [List.get?_cons_zero, Option.some.injEq] at hj; subst hj
            exact hm
          | 1 =>
            simp only [List.get?_cons_succ, List.get?_cons_zero, Option.some.injEq] at hj
            subst hj
            exact le_trans hym hm
          | j + 2 =>
            exact hmax (j + 1) w (by simpa using hj)
        · intro j w hjlt hj
          match j with
          | 0 =>
            simp only [List.get?_cons_zero, Option.some.injEq] at hj; subst hj
            exact hm'
          | 1 =>
            simp only [List.get?_cons_succ, List.get?_cons_zero, Option.some.injEq] at hj
            subst hj
            exact lt_of_le_of_lt hym hm'
          | j + 2 =>
            exact hfirst (j + 1) w (by omega) (by simpa using hj)

/-- C5: on a non-empty list, Python `max(..., key=...)` returns an element
whose key is maximal, and every element occurring strictly before it has a
strictly smaller key — so among tied maxima the first-encountered one is
returned; being a pure function of the list, selection is deterministic.
On bandwidths `[500, 1200, 1200]` it picks the element at index 1. -/
theorem rendition_selection_spec :
    (∀ (α : Type) (key : α → Int) (x : α) (xs : List α),
      ∃ i v, (x :: xs).get? i = some v ∧
        pyMax key (x :: xs) = some v ∧
        (∀ j w, (x :: xs).get? j = some w → key w ≤ key v) ∧
        (∀ j w, j < i → (x :: xs).get? j = some w → key w < key v)) ∧
    pyMax Prod.snd [((0 : Nat), (500 : Int)), (1, 1200), (2, 1200)] =
      some (1, 1200) := by
  constructor
  · intro α key x xs
    obtain ⟨i, v, hget, heq, hmax, hfirst⟩ := pyMax_go key xs x
    exact ⟨i, v, hget, heq, hmax, hfirst⟩
  · decide

/-! ## C6 -/

/-- Python `max` returns an element of its (non-empty) argument. -/
theorem pyMax_mem {α : Type} (key : α → Int) (l : List α) (m : α)
    (h : pyMax key l = some m) : m ∈ l := by
  match l with
  | [] => simp [pyMax] at h
  | x :: xs =>
    obtain ⟨i, v, hget, heq, _, _⟩ := pyMax_go key xs x
    have : pyMax key (x :: xs) = some v := heq
    rw [h] at this
    injection this with hv
    subst hv
    exact List.get?_mem hget

/-- C6 counterexample: on a period holding both a video and an audio
adaptation set, a `handle_dash` run produces exactly one output file (the
video one) — not two — and the selected representation is the video one;
no audio rendition is ever selected. -/
theorem dash_dual_output_cex :
    dashOutputs examplePeriod "output" = ["output.mp4"] ∧
    (dashOutputs examplePeriod "output").length ≠ 2 ∧
    dashSelected examplePeriod = some ⟨"v1", 1000, some 1920⟩ := by
  refine ⟨by decide, by decide, by decide⟩

/-- C6 (amended): a `handle_dash` run produces at most one output file —
none when no video adaptation set exists, in which case nothing is
selected — and any selected representation comes from the first video
adaptation set, whose content type is "video" or Python-falsy; audio
adaptation sets are never processed and no second output file exists. -/
theorem dash_video_only_spec :
    (∀ (period : List AdaptationSet) (name : String),
      (dashOutputs period name).length ≤ 1) ∧
    (∀ period : List AdaptationSet,
      video_sets period = [] →
        dashSelected period = none ∧ ∀ name, dashOutputs period name = []) ∧
    (∀ (period : List AdaptationSet) (r : Representation),
      dashSelected period = some r →
        ∃ s rest, video_sets period = s :: rest ∧
          r ∈ s.representations ∧
          (s.content_type = some "video" ∨ falsyStr s.content_type = true)) := by
  refine ⟨?_, ?_, ?_⟩
  · intro period name
    unfold dashOutputs
    cases video_sets period <;> simp
  · intro period hempty
    refine ⟨?_, ?_⟩
    · unfold dashSelected
      rw [hempty]
    · intro name
      unfold dashOutputs
      rw [hempty]
  · intro period r hsel
    unfold dashSelected at hsel
    cases hvs : video_sets period with
    | nil => rw [hvs] at hsel; exact absurd hsel (by simp)
    | cons s rest =>
      rw [hvs] at hsel
      refine ⟨s, rest, rfl, pyMax_mem _ _ _ hsel, ?_⟩
      have hs : s ∈ video_sets period := by rw [hvs]; exact List.mem_cons_self s rest
      have hvid : isVideoSet s = true := (List.mem_filter.mp hs).2
      unfold isVideoSet at hvid
      rcases Bool.or_eq_true _ _ |>.mp hvid with hl | hr
      · left
        exact eq_of_beq hl
      · right
        exact (Bool.and_eq_true _ _ |>.mp hr).1

/-- Witness for C6's amended theorem at the video+audio period. -/
theorem dash_video_only_spec_witness :
    (dashOutputs examplePeriod "output").length ≤ 1 ∧
    (∃ s rest, video_sets examplePeriod = s :: rest ∧
      (⟨"v1", 1000, some 1920⟩ : Representation) ∈ s.representations ∧
      (s.content_type = some "video" ∨ falsyStr s.content_type = true)) :=
  ⟨dash_video_only_spec.1 examplePeriod "output",
   dash_video_only_spec.2.2 examplePeriod ⟨"v1", 1000, some 1920⟩ (by decide)⟩

/-! ## C3 -/

/-- C3 (code bug): `handle_dash` passes bare file names with `is_abs=True`,
so `merge_files` resolves them against the process working directory
instead of the temporary directory.  With the init segment and segment 0
present in the temporary directory (contents `[9]` and `[1]`), the merged
artifact is written empty instead of holding `[9] ++ [1]`; resolving the
same names against the temporary directory (as `is_abs=False` would, and
as the HLS branch does) yields the intended concatenation. -/
theorem dash_merge_cwd_bug :
    bugFS (pathJoin bugTmpDir "init.mp4") = some [9] ∧
    bugFS (pathJoin bugTmpDir "seg_00000.m4s") = some [1] ∧
    merge_files_content bugFS bugTmpDir ["init.mp4", "seg_00000.m4s"] true = [] ∧
    merge_files_content bugFS bugTmpDir ["init.mp4", "seg_00000.m4s"] false = [9, 1] ∧
    (dash_merge bugFS bugTmpDir "downloads" ["seg_00000.m4s"]).1
      (pathJoin bugTmpDir "merged_encrypted.mp4") = some [] ∧
    ([] : Bytes) ≠ [9] ++ [1] := by
  refine ⟨by decide, by decide, by decide, by decide, by decide, by decide⟩

/-! ## C10 -/

/-- C10: with an empty key list, `decrypt_mp4` starts no external tool,
renames the merged input to the output path (the input's bytes move to the
output and the input path disappears) and returns `True`; hence a keyless
DASH finalize reports the final output path as successfully decrypted and
places the raw concatenation there. -/
theorem keyless_rename_spec (tool : ToolRun) (toolOut : Bytes → Bytes)
    (fs : FS) (tmpDir saveDir saveName : String) (b : Bytes)
    (hin : fs (pathJoin tmpDir "merged_encrypted.mp4") = some b)
    (hne : pathJoin tmpDir "merged_encrypted.mp4" ≠
      pathJoin saveDir (saveName ++ ".mp4")) :
    (decrypt_mp4 [] tool toolOut fs (pathJoin tmpDir "merged_encrypted.mp4")
        (pathJoin saveDir (saveName ++ ".mp4"))).result = Except.ok true ∧
    (decrypt_mp4 [] tool toolOut fs (pathJoin tmpDir "merged_encrypted.mp4")
        (pathJoin saveDir (saveName ++ ".mp4"))).toolInvoked = false ∧
    (decrypt_mp4 [] tool toolOut fs (pathJoin tmpDir "merged_encrypted.mp4")
        (pathJoin saveDir (saveName ++ ".mp4"))).fs
        (pathJoin saveDir (saveName ++ ".mp4")) = some b ∧
    (decrypt_mp4 [] tool toolOut fs (pathJoin tmpDir "merged_encrypted.mp4")
        (pathJoin saveDir (saveName ++ ".mp4"))).fs
        (pathJoin tmpDir "merged_encrypted.mp4") = none ∧
    (finalizeDash [] tool toolOut fs tmpDir saveDir saveName).1 =
      Except.ok (pathJoin saveDir (saveName ++ ".mp4"), true) ∧
    (finalizeDash [] tool toolOut fs tmpDir saveDir saveName).2
      (pathJoin saveDir (saveName ++ ".mp4")) = some b := by
  have hd : decrypt_mp4 [] tool toolOut fs (pathJoin tmpDir "merged_encrypted.mp4")
      (pathJoin saveDir (saveName ++ ".mp4")) =
      ⟨Except.ok true, false,
        fsWrite (fsErase fs (pathJoin tmpDir "merged_encrypted.mp4"))
          (pathJoin saveDir (saveName ++ ".mp4")) b⟩ := by
    simp [decrypt_mp4, hin]
  refine ⟨by rw [hd], by rw [hd], ?_, ?_, ?_, ?_⟩
  · rw [hd]; simp [fsWrite]
  · rw [hd]
    simp only [fsWrite, fsErase]
    rw [if_neg hne]
    simp
  · simp only [finalizeDash, hd]
  · simp only [finalizeDash, hd]
    simp [fsWrite]

/-- Witness for C10: a keyless finalize over a filesystem holding only the
merged artifact (bytes `[5]`). -/
theorem keyless_rename_spec_witness :
    mergedFS (pathJoin "downloads/tmp_output" "merged_encrypted.mp4") = some [5] ∧
    pathJoin "downloads/tmp_output" "merged_encrypted.mp4" ≠
      pathJoin "downloads" ("output" ++ ".mp4") ∧
    (finalizeDash [] ToolRun.spawnFail id mergedFS
        "downloads/tmp_output" "downloads" "output").1 =
      Except.ok (pathJoin "downloads" ("output" ++ ".mp4"), true) :=
  ⟨by decide, by decide,
   (keyless_rename_spec ToolRun.spawnFail id mergedFS
      "downloads/tmp_output" "downloads" "output" [5]
      (by decide) (by decide)).2.2.2.2.1⟩

/-! ## C9 -/

/-- C9 counterexample: with a non-empty key list and the external tool
binary unavailable, the spawn failure propagates as an uncaught exception
— `decrypt_mp4` returns no boolean and the finalize step reports nothing,
instead of falling back to a `DecryptionFailed` report. -/
theorem decrypt_spawn_cex :
    (decrypt_mp4 ["key1"] ToolRun.spawnFail id mergedFS
        "downloads/tmp_output/merged_encrypted.mp4"
        "downloads/output.mp4").result = Except.error () ∧
    (finalizeDash ["key1"] ToolRun.spawnFail id mergedFS
        "downloads/tmp_output" "downloads" "output").1 = Except.error () ∧
    (Except.error () : Except Unit (String × Bool)) ≠
      Except.ok ("downloads/tmp_output/merged_encrypted.mp4", false) := by
  refine ⟨rfl, rfl, fun h => Except.noConfusion h⟩

/-- C9 (amended): when the external tool process does start, a non-zero
exit is caught and finalize falls back to reporting the still-encrypted
merged artifact at its temporary path (`DecryptionFailed`), leaving the
filesystem — hence the retained encrypted artifact — untouched, so the
reported path exists whenever the merged artifact does; a zero exit
reports the decrypted final output path, which exists afterwards.  When
the tool binary is unavailable the spawn error propagates uncaught and
nothing is reported. -/
theorem decrypt_fallback_spec (k : String) (ks : List String)
    (toolOut : Bytes → Bytes) (fs : FS) (tmpDir saveDir saveName : String)
    (c : Nat) :
    (decrypt_mp4 (k :: ks) (ToolRun.exitCode (c + 1)) toolOut fs
        (pathJoin tmpDir "merged_encrypted.mp4")
        (pathJoin saveDir (saveName ++ ".mp4"))).result = Except.ok false ∧
    (decrypt_mp4 (k :: ks) (ToolRun.exitCode (c + 1)) toolOut fs
        (pathJoin tmpDir "merged_encrypted.mp4")
        (pathJoin saveDir (saveName ++ ".mp4"))).fs = fs ∧
    (finalizeDash (k :: ks) (ToolRun.exitCode (c + 1)) toolOut fs
        tmpDir saveDir saveName).1 =
      Except.ok (pathJoin tmpDir "merged_encrypted.mp4", false) ∧
    (fs (pathJoin tmpDir "merged_encrypted.mp4") ≠ none →
      (finalizeDash (k :: ks) (ToolRun.exitCode (c + 1)) toolOut fs
          tmpDir saveDir saveName).2
        (pathJoin tmpDir "merged_encrypted.mp4") ≠ none) ∧
    (finalizeDash (k :: ks) (ToolRun.exitCode 0) toolOut fs
        tmpDir saveDir saveName).1 =
      Except.ok (pathJoin saveDir (saveName ++ ".mp4"), true) ∧
    (finalizeDash (k :: ks) (ToolRun.exitCode 0) toolOut fs
        tmpDir saveDir saveName).2
      (pathJoin saveDir (saveName ++ ".mp4")) ≠ none ∧
    (finalizeDash (k :: ks) ToolRun.spawnFail toolOut fs
        tmpDir saveDir saveName).1 = Except.error () := by
  have hfail : decrypt_mp4 (k :: ks) (ToolRun.exitCode (c + 1)) toolOut fs
      (pathJoin tmpDir "merged_encrypted.mp4")
      (pathJoin saveDir (saveName ++ ".mp4")) =
      ⟨Except.ok false, true, fs⟩ := by
    simp [decrypt_mp4]
  have hok : decrypt_mp4 (k :: ks) (ToolRun.exitCode 0) toolOut fs
      (pathJoin tmpDir "merged_encrypted.mp4")
      (pathJoin saveDir (saveName ++ ".mp4")) =
      ⟨Except.ok true, true,
        fsWrite fs (pathJoin saveDir (saveName ++ ".mp4"))
          (toolOut ((fs (pathJoin tmpDir "merged_encrypted.mp4")).getD []))⟩ := by
    simp [decrypt_mp4]
  refine ⟨by rw [hfail], by rw [hfail], ?_, ?_, ?_, ?_, ?_⟩
  · simp only [finalizeDash, hfail]
  · intro hex
    simp only [finalizeDash, hfail]
    exact hex
  · simp only [finalizeDash, hok]
  · simp only [finalizeDash, hok]
    simp [fsWrite]
  · simp [finalizeDash, decrypt_mp4]

/-- Witness for C9's amended theorem: non-zero exit over the merged-artifact
filesystem. -/
theorem decrypt_fallback_spec_witness :
    mergedFS (pathJoin "downloads/tmp_output" "merged_encrypted.mp4") ≠ none ∧
    (finalizeDash ["key1"] (ToolRun.exitCode 1) id mergedFS
        "downloads/tmp_output" "downloads" "output").1 =
      Except.ok (pathJoin "downloads/tmp_output" "merged_encrypted.mp4", false) ∧
    (finalizeDash ["key1"] (ToolRun.exitCode 1) id mergedFS
        "downloads/tmp_output" "downloads" "output").2
      (pathJoin "downloads/tmp_output" "merged_encrypted.mp4") ≠ none :=
  ⟨by decide,
   (decrypt_fallback_spec "key1" [] id mergedFS
      "downloads/tmp_output" "downloads" "output" 0).2.2.1,
   (decrypt_fallback_spec "key1" [] id mergedFS
      "downloads/tmp_output" "downloads" "output" 0).2.2.2.1 (by decide)⟩

/-! ## C7 -/

/-- Dropping while a predicate holds skips a first block that satisfies it
throughout. -/
theorem dropWhile_append_all {α : Type} (p : α → Bool) (l1 l2 : List α)
    (h : ∀ x ∈ l1, p x = true) :
    (l1 ++ l2).dropWhile p = l2.dropWhile p := by
  induction l1 with
  | nil => rfl
  | cons a l ih =>
    rw [List.cons_append, List.dropWhile_cons,
      if_pos (h a (List.mem_cons_self a l))]
    exact ih (fun x hx => h x (List.mem_cons_of_mem a hx))

/-- `rsplit('/', 1)[0]` ignores a trailing query: appending `'?' :: q` with
no slash in `q` does not change the part before the last slash. -/
theorem rsplit_query (pre q : List Char) (hpre : '/' ∈ pre) (hq : '/' ∉ q) :
    pyRsplitBeforeLast '/' (pre ++ '?' :: q) = pyRsplitBeforeLast '/' pre := by
  unfold pyRsplitBeforeLast
  have hrev : (pre ++ '?' :: q).reverse = (q.reverse ++ ['?']) ++ pre.reverse := by
    rw [List.reverse_append, List.reverse_cons, List.append_assoc]
  rw [hrev]
  have hall : ∀ c ∈ q.reverse ++ ['?'], (c != '/') = true := by
    intro c hc
    rcases List.mem_append.mp hc with h | h
    · have hcq : c ∈ q := List.mem_reverse.mp h
      simp only [bne_iff_ne, ne_eq]
      intro hcc
      subst hcc
      exact hq hcq
    · simp only [List.mem_singleton] at h
      subst h
      decide
  rw [dropWhile_append_all _ _ _ hall]
  have hne : pre.reverse.dropWhile (fun c => c != '/') ≠ [] := by
    intro hnil
    have hmem := List.dropWhile_eq_nil_iff.mp hnil '/' (List.mem_reverse.mpr hpre)
    simp at hmem
  cases hd : pre.reverse.dropWhile (fun c => c != '/') with
  | nil => exact absurd hd hne
  | cons a rest => rfl

/-- The base URL computation drops the final path component and with it any
query string. -/
theorem dashBaseUrl_query (pre q : List Char) (hpre : '/' ∈ pre)
    (hq : '/' ∉ q) :
    dashBaseUrl (pre ++ '?' :: q) = dashBaseUrl pre := by
  unfold dashBaseUrl
  rw [rsplit_query pre q hpre hq]

/-- C7 counterexample: on the manifest URI
"http://host/path/man.mpd?token=abc", the derived segment and init URLs
carry no query at all — the `token` parameter of the manifest URI is not
propagated (the claim says it must be). -/
theorem query_propagation_cex :
    dashSegUrl "http://host/path/man.mpd?token=abc".toList
        "seg_$Time$.m4s".toList "rep1".toList 0 =
      "http://host/path/seg_0.m4s".toList ∧
    ¬ ('?' ∈ dashSegUrl "http://host/path/man.mpd?token=abc".toList
        "seg_$Time$.m4s".toList "rep1".toList 0) ∧
    dashInitUrl "http://host/path/man.mpd?token=abc".toList
        "init_$RepresentationID$.mp4".toList "rep1".toList =
      "http://host/path/init_rep1.mp4".toList ∧
    ¬ ('?' ∈ dashInitUrl "http://host/path/man.mpd?token=abc".toList
        "init_$RepresentationID$.mp4".toList "rep1".toList) := by
  refine ⟨by decide, by decide, by decide, by decide⟩

/-- C7 (amended): placeholder substitution still happens before URI-joining,
but the manifest URI's query parameters are dropped, not propagated: the
base URL is the manifest URI with its final path component — including any
query string after it — removed, so derived segment and init URLs are
unchanged by any query on the manifest URI. -/
theorem query_dropped_spec :
    (∀ (pre q tmpl repId : List Char) (t : Int),
      '/' ∈ pre → '/' ∉ q →
        dashSegUrl (pre ++ '?' :: q) tmpl repId t =
          dashSegUrl pre tmpl repId t) ∧
    (∀ (pre q initTmpl repId : List Char),
      '/' ∈ pre → '/' ∉ q →
        dashInitUrl (pre ++ '?' :: q) initTmpl repId =
          dashInitUrl pre initTmpl repId) ∧
    dashSegUrl "http://host/path/man.mpd?token=abc".toList
        "seg_$Time$.m4s".toList "rep1".toList 7 =
      "http://host/path/seg_7.m4s".toList := by
  refine ⟨?_, ?_, by decide⟩
  · intro pre q tmpl repId t h1 h2
    unfold dashSegUrl
    rw [dashBaseUrl_query pre q h1 h2]
  · intro pre q initTmpl repId h1 h2
    unfold dashInitUrl
    rw [dashBaseUrl_query pre q h1 h2]

/-- Witness for C7's amended theorem: a tokened manifest URI yields the
same segment URL as the token-free one. -/
theorem query_dropped_spec_witness :
    '/' ∈ "http://host/path/man.mpd".toList ∧
    '/' ∉ "token=abc".toList ∧
    dashSegUrl ("http://host/path/man.mpd".toList ++ '?' :: "token=abc".toList)
        "seg_$Time$.m4s".toList "rep1".toList 7 =
      dashSegUrl "http://host/path/man.mpd".toList
        "seg_$Time$.m4s".toList "rep1".toList 7 :=
  ⟨by decide, by decide,
   query_dropped_spec.1 "http://host/path/man.mpd".toList "token=abc".toList
     "seg_$Time$.m4s".toList "rep1".toList 7 (by decide) (by decide)⟩

end NM3u8DL
